import Mathlib

/-!
# Verification of the AffordabilityIndex V2 scoring engine

Shallow embedding of the scoring pipeline of `calculate_v2_scores.py`,
`generate_v2_scores.py` and `generate_v2_scores_batch.py`.  SQL window
computations (`PERCENT_RANK`) are embedded as list functions over `ℚ`;
database tables become association lists; a `NULL`-able column becomes an
`Option`.
-/

namespace AffordabilityIndex

/-! ## Data model -/

/-- Identity key used throughout: `(geoType, geoId)`. -/
structure GeoKey where
  geoType : String
  geoId : String
deriving DecidableEq

/-- One row of a component's burden computation: a geography together with its
dimensionless burden ratio (the rows entering a component's `ranked` CTE). -/
structure RatioRow where
  key : GeoKey
  ratio : ℚ
deriving DecidableEq

/-- One value of the per-component `scores_map` dictionaries built by
`calculate_all_housing_scores` / `..._col_...` / `..._tax_...`:
`{score, percentile, burden_ratio}`. -/
structure CompEntry where
  score : ℚ
  percentile : ℚ
  ratio : ℚ
deriving DecidableEq

/-- A row of the `v2_affordability_score` table (the persisted ScoreRecord),
without the `calculatedAt` timestamp. -/
structure ScoreRecord where
  geoType : String
  geoId : String
  housingScore : Option ℚ
  colScore : Option ℚ
  taxScore : Option ℚ
  qolScore : Option ℚ
  compositeScore : ℚ
  housingBurdenRatio : Option ℚ
  colBurdenRatio : Option ℚ
  taxBurdenRatio : Option ℚ
  dataQuality : String
deriving DecidableEq

instance : Inhabited ScoreRecord :=
  ⟨{ geoType := "", geoId := "", housingScore := none, colScore := none,
     taxScore := none, qolScore := none, compositeScore := 0,
     housingBurdenRatio := none, colBurdenRatio := none,
     taxBurdenRatio := none, dataQuality := "" }⟩

/-- The `(geoType, geoId)` identity of a persisted record. -/
def ScoreRecord.key (r : ScoreRecord) : GeoKey := ⟨r.geoType, r.geoId⟩

/-- First-match association-list lookup (dict access `map.get(key)`). -/
def assocLookup {α β : Type} [DecidableEq α] (m : List (α × β)) (k : α) : Option β :=
  match m with
  | [] => none
  | p :: rest => if p.1 = k then some p.2 else assocLookup rest k

/-! ## Percentile rank (SQL `PERCENT_RANK`) -/

/-- Number of population values strictly below `v`. -/
def countLt (vals : List ℚ) (v : ℚ) : Nat :=
  (vals.filter (fun x => decide (x < v))).length

/-- SQL `RANK()` of value `v` within `vals` ordered ascending: one more than
the number of strictly smaller values (all ties share the rank of their first
peer). -/
def sqlRank (vals : List ℚ) (v : ℚ) : Nat :=
  1 + countLt vals v

/-- SQL `PERCENT_RANK() OVER (ORDER BY v) * 100`: `(rank - 1) / (N - 1) * 100`. -/
def percentRank (vals : List ℚ) (v : ℚ) : ℚ :=
  ((sqlRank vals v : ℚ) - 1) / ((vals.length : ℚ) - 1) * 100

/-- `percentile_to_score` from `calculate_v2_scores.py`. -/
def percentile_to_score (percentile : ℚ) : ℚ :=
  100 - percentile

/-- The per-component dictionary built by the batch component queries:
for each input row, `score = 100 - percentile` where `percentile` is the
`PERCENT_RANK` of the row's burden ratio over all input rows. -/
def scoresMap (rows : List RatioRow) : List (GeoKey × CompEntry) :=
  let vals := rows.map (·.ratio)
  rows.map (fun r =>
    (r.key,
     { score := 100 - percentRank vals r.ratio,
       percentile := percentRank vals r.ratio,
       ratio := r.ratio }))

/-! ## Fixed-weight composite (`calculate_v2_scores.py`) -/

def HOUSING_WEIGHT : ℚ := 40 / 100
def COL_WEIGHT : ℚ := 30 / 100
def TAX_WEIGHT : ℚ := 20 / 100
def QOL_WEIGHT : ℚ := 10 / 100

/-- The parallel `components` / `weights` lists built by
`calculate_composite_score`, zipped into pairs `(score, weight)`. -/
def presentPairs (housing col tax qol : Option ℚ) : List (ℚ × ℚ) :=
  (match housing with | some s => [(s, HOUSING_WEIGHT)] | none => []) ++
  (match col with | some s => [(s, COL_WEIGHT)] | none => []) ++
  (match tax with | some s => [(s, TAX_WEIGHT)] | none => []) ++
  (match qol with | some s => [(s, QOL_WEIGHT)] | none => [])

/-- `calculate_composite_score` from `calculate_v2_scores.py`: weights of the
present components are renormalised to sum to 1, then the weighted average of
the present sub-scores is returned; `none` when no component is present. -/
def calculate_composite_score (housing col tax qol : Option ℚ) : Option ℚ :=
  let ps := presentPairs housing col tax qol
  if ps = [] then none
  else
    let total_weight := (ps.map Prod.snd).sum
    some ((ps.map (fun p => p.1 * (p.2 / total_weight))).sum)

/-- `assess_data_quality` from `generate_v2_scores.py`: counts the non-`None`
results among the four components (qol included). -/
def assess_data_quality (housing col tax qol : Bool) : String :=
  let components_available :=
    (cond housing 1 0) + (cond col 1 0) + (cond tax 1 0) + (cond qol 1 0)
  if 3 ≤ components_available then "complete"
  else if 2 ≤ components_available then "partial"
  else "minimal"

/-- `generate_v2_score_for_geography` from `generate_v2_scores.py`:
computes the fixed-weight composite from the component results and, when it
exists, assembles the ScoreRecord with its data-quality label. -/
def generate_v2_score_for_geography (k : GeoKey)
    (housing col tax qol : Option CompEntry) : Option ScoreRecord :=
  match calculate_composite_score (housing.map (·.score)) (col.map (·.score))
      (tax.map (·.score)) (qol.map (·.score)) with
  | none => none
  | some composite =>
    some {
      geoType := k.geoType, geoId := k.geoId,
      housingScore := housing.map (·.score), colScore := col.map (·.score),
      taxScore := tax.map (·.score), qolScore := qol.map (·.score),
      compositeScore := composite,
      housingBurdenRatio := housing.map (·.ratio),
      colBurdenRatio := col.map (·.ratio),
      taxBurdenRatio := tax.map (·.ratio),
      dataQuality :=
        assess_data_quality housing.isSome col.isSome tax.isSome qol.isSome }

/-! ## Tax burden ratio -/

/-- A row of the `income_tax_rate` table (bracketed effective rates, stored as
percentages: `4.56` means 4.56%). -/
structure IncomeTaxRates where
  effectiveRateAt50k : ℚ
  effectiveRateAt75k : ℚ
  effectiveRateAt100k : ℚ
  effectiveRateAt150k : ℚ
  effectiveRateAt200k : ℚ
deriving DecidableEq

/-- The `CASE WHEN medianIncome < 50000 THEN "effectiveRateAt50k" ...` bracket
selection shared by both tax queries. -/
def bracketRate (rates : IncomeTaxRates) (income : ℚ) : ℚ :=
  if income < 50000 then rates.effectiveRateAt50k
  else if income < 75000 then rates.effectiveRateAt75k
  else if income < 100000 then rates.effectiveRateAt100k
  else if income < 150000 then rates.effectiveRateAt150k
  else rates.effectiveRateAt200k

/-- The `tax_ratio` expression of `calculate_all_tax_scores`
(`generate_v2_scores_batch.py`): the bracket rate is divided by 100 (it is
stored as a percentage); a missing `income_tax_rate` or `sales_tax_rate` row
(failed `LEFT JOIN`) is `COALESCE`d to 0. -/
def batchTaxRatio (income : ℚ) (incomeTaxRow : Option IncomeTaxRates)
    (salesTaxRow : Option ℚ) : ℚ :=
  let bracket := match incomeTaxRow with | some r => bracketRate r income | none => 0
  let incomeTaxAmount := income * (bracket / 100)
  let salesRate := match salesTaxRow with | some combined => combined / 100 | none => 0
  let salesTaxAmount := (income - income * (bracket / 100)) * (30 / 100) * salesRate
  (incomeTaxAmount + salesTaxAmount) / income

/-- The tax-burden-ratio computation of `calculate_tax_burden_score`
(`calculate_v2_scores.py`, lines 429–454): `effective_rate` is the bracket
rate fetched for the state's row, used *as is* (`income_tax_rate =
float(income_tax_row['effective_rate'])`, no division by 100); a missing
income-tax row yields rate 0; a missing sales-tax row yields rate 0. -/
def calcTaxBurdenRatio (income : ℚ) (effectiveRate : Option ℚ)
    (salesTaxRow : Option ℚ) : ℚ :=
  let income_tax_rate := match effectiveRate with | some r => r | none => 0
  let sales_tax_rate := match salesTaxRow with | some combined => combined / 100 | none => 0
  let income_tax_amount := income * income_tax_rate
  let taxable_spending := (income - income_tax_amount) * (30 / 100)
  let sales_tax_amount := taxable_spending * sales_tax_rate
  let total_tax_burden := income_tax_amount + sales_tax_amount
  if 0 < income then total_tax_burden / income else 0

/-- A row of the `geo_with_state` CTE: a geography joined to its state. -/
structure GeoStateRow where
  key : GeoKey
  stateAbbr : String
  medianIncome : ℚ
deriving DecidableEq

/-- The `tax_calc` CTE of `calculate_all_tax_scores`: every geography with a
resolvable state and positive income gets a tax ratio, with both tax-rate
lookups `LEFT JOIN`ed (missing rows coerced to rate 0). -/
def taxRatioRows (geos : List GeoStateRow)
    (incomeTaxTable : List (String × IncomeTaxRates))
    (salesTaxTable : List (String × ℚ)) : List RatioRow :=
  (geos.filter (fun g => decide (0 < g.medianIncome))).map (fun g =>
    ⟨g.key, batchTaxRatio g.medianIncome (assocLookup incomeTaxTable g.stateAbbr)
      (assocLookup salesTaxTable g.stateAbbr)⟩)

/-! ## Burden-proportional composite (`generate_v2_scores_batch.py`) -/

/-- `total_burden` accumulated in `calculate_composite_scores`: sum of the
burden ratios of the present components. -/
def totalBurden (housing col tax : Option CompEntry) : ℚ :=
  (match housing with | some e => e.ratio | none => 0) +
  (match col with | some e => e.ratio | none => 0) +
  (match tax with | some e => e.ratio | none => 0)

/-- The weighted average `sum(c * w for c, w in zip(components, weights))`
with the dynamic weights `burden_ratio / total_burden`. -/
def batchComposite (housing col tax : Option CompEntry) : ℚ :=
  let total := totalBurden housing col tax
  (match housing with | some e => e.score * (e.ratio / total) | none => 0) +
  (match col with | some e => e.score * (e.ratio / total) | none => 0) +
  (match tax with | some e => e.score * (e.ratio / total) | none => 0)

/-- `components_available = sum([housing is not None, col is not None,
tax is not None])` from the batch script. -/
def componentsAvailable (housing col tax : Option CompEntry) : Nat :=
  (cond housing.isSome 1 0) + (cond col.isSome 1 0) + (cond tax.isSome 1 0)

/-- One iteration of the loop body of `calculate_composite_scores`
(`generate_v2_scores_batch.py`): skip when the total burden is zero or no
component is present, otherwise emit the record with the burden-weighted
composite and the 2-of-3 data-quality label. -/
def mkRecord (k : GeoKey) (housing col tax : Option CompEntry) : Option ScoreRecord :=
  if totalBurden housing col tax = 0 then none
  else if componentsAvailable housing col tax = 0 then none
  else
    some {
      geoType := k.geoType, geoId := k.geoId,
      housingScore := housing.map (·.score), colScore := col.map (·.score),
      taxScore := tax.map (·.score), qolScore := none,
      compositeScore := batchComposite housing col tax,
      housingBurdenRatio := housing.map (·.ratio),
      colBurdenRatio := col.map (·.ratio),
      taxBurdenRatio := tax.map (·.ratio),
      dataQuality :=
        if 2 ≤ componentsAvailable housing col tax then "complete"
        else if 1 ≤ componentsAvailable housing col tax then "partial"
        else "minimal" }

/-- `calculate_composite_scores` from `generate_v2_scores_batch.py`:
iterate over the set of all geographies present in at least one component
map, emitting a record unless the geography is skipped. -/
def calculate_composite_scores (housing_map col_map tax_map : List (GeoKey × CompEntry)) :
    List ScoreRecord :=
  let all_geos :=
    (housing_map.map Prod.fst ++ col_map.map Prod.fst ++ tax_map.map Prod.fst).dedup
  all_geos.filterMap (fun k =>
    mkRecord k (assocLookup housing_map k) (assocLookup col_map k) (assocLookup tax_map k))

/-! ## Score store and global normalisation -/

/-- The `ON CONFLICT ("geoType","geoId") DO UPDATE` matching condition. -/
def matchesKey (r x : ScoreRecord) : Bool :=
  decide (x.geoType = r.geoType ∧ x.geoId = r.geoId)

/-- One row upsert: overwrite the row with the same `(geoType, geoId)` if it
exists, otherwise insert. -/
def upsertOne (store : List ScoreRecord) (r : ScoreRecord) : List ScoreRecord :=
  if store.any (matchesKey r) then store.map (fun x => if matchesKey r x then r else x)
  else store ++ [r]

/-- `store_v2_scores`: batch upsert of all records into the
`v2_affordability_score` table. -/
def store_v2_scores (store : List ScoreRecord) (records : List ScoreRecord) :
    List ScoreRecord :=
  records.foldl upsertOne store

/-- `normalize_composite_scores` from `generate_v2_scores_batch.py`: overwrite
every `compositeScore` with its `PERCENT_RANK() * 100` over the whole table. -/
def normalizeStore (store : List ScoreRecord) : List ScoreRecord :=
  let vals := store.map (·.compositeScore)
  store.map (fun r => { r with compositeScore := percentRank vals r.compositeScore })

/-- `main` of `generate_v2_scores_batch.py` after the component maps are
built: compose, store, then globally normalise.  The component inputs are the
burden-ratio rows feeding each component's ranking query. -/
def runPipeline (housingRows colRows taxRows : List RatioRow)
    (store : List ScoreRecord) : List ScoreRecord :=
  let records := calculate_composite_scores
    (scoresMap housingRows) (scoresMap colRows) (scoresMap taxRows)
  normalizeStore (store_v2_scores store records)

/-! ## Spec-side definitions -/

/-- Median of a list of rationals: midpoint of the sorted list (mean of the
two central elements for even length).  Used to state the spec's
"median of all compositeScore values equals 50" property. -/
def medianQ (l : List ℚ) : ℚ :=
  let sorted := List.insertionSort (· ≤ ·) l
  if l.length % 2 = 1 then sorted.getD (l.length / 2) 0
  else (sorted.getD (l.length / 2 - 1) 0 + sorted.getD (l.length / 2) 0) / 2

/-- Data-quality rule as the spec words it: `complete` when at least 2 of
{housing, col, tax} are present, `partial` when exactly 1, else `minimal`. -/
def specDataQuality (housing col tax : Bool) : String :=
  let n := (cond housing 1 0) + (cond col 1 0) + (cond tax 1 0)
  if 2 ≤ n then "complete"
  else if n = 1 then "partial"
  else "minimal"

/-! ## Helper lemmas -/

theorem mkRecord_eq_some {k : GeoKey} {housing col tax : Option CompEntry}
    {r : ScoreRecord} (hmk : mkRecord k housing col tax = some r) :
    totalBurden housing col tax ≠ 0 ∧
    r = { geoType := k.geoType, geoId := k.geoId,
          housingScore := housing.map (·.score), colScore := col.map (·.score),
          taxScore := tax.map (·.score), qolScore := none,
          compositeScore := batchComposite housing col tax,
          housingBurdenRatio := housing.map (·.ratio),
          colBurdenRatio := col.map (·.ratio),
          taxBurdenRatio := tax.map (·.ratio),
          dataQuality :=
            if 2 ≤ componentsAvailable housing col tax then "complete"
            else if 1 ≤ componentsAvailable housing col tax then "partial"
            else "minimal" } := by
  by_cases h0 : totalBurden housing col tax = 0
  · simp [mkRecord, h0] at hmk
  · by_cases h1 : componentsAvailable housing col tax = 0
    · simp [mkRecord, h0, h1] at hmk
    · simp [mkRecord, h0, h1] at hmk
      exact ⟨h0, hmk.symm⟩

theorem mkRecord_key {k : GeoKey} {housing col tax : Option CompEntry}
    {r : ScoreRecord} (hmk : mkRecord k housing col tax = some r) :
    r.key = k := by
  obtain ⟨-, rfl⟩ := mkRecord_eq_some hmk
  cases k
  rfl

theorem mem_composite_scores {housing_map col_map tax_map : List (GeoKey × CompEntry)}
    {r : ScoreRecord} (hr : r ∈ calculate_composite_scores housing_map col_map tax_map) :
    mkRecord r.key (assocLookup housing_map r.key) (assocLookup col_map r.key)
      (assocLookup tax_map r.key) = some r := by
  unfold calculate_composite_scores at hr
  simp only [List.mem_filterMap] at hr
  obtain ⟨k, -, hmk⟩ := hr
  have hk := mkRecord_key hmk
  rw [← hk] at hmk
  exact hmk

/-! ## C10 -/

/-- C10: under the fixed-weight policy, a geography with exactly one present
component sub-score gets that sub-score back unchanged as its composite
(the single renormalised weight is 1). -/
theorem c10_single_component_passthrough (s : ℚ) :
    calculate_composite_score (some s) none none none = some s ∧
    calculate_composite_score none (some s) none none = some s ∧
    calculate_composite_score none none (some s) none = some s ∧
    calculate_composite_score none none none (some s) = some s := by
  refine ⟨?_, ?_, ?_, ?_⟩ <;>
    simp [calculate_composite_score, presentPairs,
      HOUSING_WEIGHT, COL_WEIGHT, TAX_WEIGHT, QOL_WEIGHT]

/-! ## C4 -/

/-- C4: the per-geography script `calculate_v2_scores.py` uses the stored
percentage income-tax rate directly as a decimal: with the rate stored as
4.56 (meaning 4.56%) and income 60000 it produces a tax burden ratio of
4.56 (456% of income), exactly 100 times the ratio computed by the batch
script, which divides the stored rate by 100. -/
theorem c4_income_tax_rate_unit_bug :
    calcTaxBurdenRatio 60000 (some (456/100)) none = 456/100 ∧
    batchTaxRatio 60000
      (some ⟨456/100, 456/100, 456/100, 456/100, 456/100⟩) none = 456/10000 ∧
    calcTaxBurdenRatio 60000 (some (456/100)) none =
      100 * batchTaxRatio 60000
        (some ⟨456/100, 456/100, 456/100, 456/100, 456/100⟩) none := by
  refine ⟨by norm_num [calcTaxBurdenRatio], by norm_num [batchTaxRatio, bracketRate],
    by norm_num [calcTaxBurdenRatio, batchTaxRatio, bracketRate]⟩

/-! ## C2 -/

/-- C2: the fixed-weight composite is the sum over present components of
sub-score times renormalised weight (weight divided by the sum of the present
components' weights); in the spec's scenario (housingScore 68.22, taxScore
21.13, colScore absent) the composite is 15757/300 ≈ 52.52, within 0.1 of
52.49 and different from 68.22. -/
theorem c2_fixed_weight_renormalization :
    (∀ housing col tax qol : Option ℚ,
      presentPairs housing col tax qol ≠ [] →
      calculate_composite_score housing col tax qol =
        some (((presentPairs housing col tax qol).map
          (fun p => p.1 *
            (p.2 / ((presentPairs housing col tax qol).map Prod.snd).sum))).sum)) ∧
    (∀ hs ts : ℚ, calculate_composite_score (some hs) none (some ts) none =
      some (hs * (HOUSING_WEIGHT / (HOUSING_WEIGHT + TAX_WEIGHT)) +
            ts * (TAX_WEIGHT / (HOUSING_WEIGHT + TAX_WEIGHT)))) ∧
    calculate_composite_score (some (6822/100)) none (some (2113/100)) none =
      some (15757/300) ∧
    (5249/100 : ℚ) - 1/10 < 15757/300 ∧ (15757/300 : ℚ) < 5249/100 + 1/10 ∧
    (15757/300 : ℚ) ≠ 6822/100 := by
  refine ⟨?_, ?_, ?_, by norm_num, by norm_num, by norm_num⟩
  · intro housing col tax qol hne
    simp only [calculate_composite_score]
    rw [if_neg hne]
  · intro hs ts
    simp [calculate_composite_score, presentPairs,
      HOUSING_WEIGHT, COL_WEIGHT, TAX_WEIGHT, QOL_WEIGHT]
  · simp only [calculate_composite_score, presentPairs]
    rw [if_neg (by simp)]
    norm_num [HOUSING_WEIGHT, COL_WEIGHT, TAX_WEIGHT, QOL_WEIGHT]

/-- Witness for C2 at a concrete input. -/
theorem c2_fixed_weight_renormalization_witness :
    presentPairs (some 50) (some 60) none none ≠ [] ∧
    calculate_composite_score (some 50) (some 60) none none =
      some (((presentPairs (some 50) (some 60) none none).map
        (fun p => p.1 *
          (p.2 / ((presentPairs (some 50) (some 60) none none).map Prod.snd).sum))).sum) :=
  ⟨by simp [presentPairs],
   c2_fixed_weight_renormalization.1 (some 50) (some 60) none none (by simp [presentPairs])⟩

/-! ## C1 -/

/-- C1: for a component scored over a population of at least two geographies
with present ratios, every geography's sub-score equals 100 minus its
percentile, where the percentile is (number of strictly lower ratios) /
(N - 1) * 100, and tied ratios receive the same percentile. -/
theorem c1_subscore_is_inverted_percent_rank (rows : List RatioRow)
    (_hN : 2 ≤ rows.length) :
    ∀ p ∈ scoresMap rows,
      p.2.score =
        100 - (countLt (rows.map RatioRow.ratio) p.2.ratio : ℚ) /
          ((rows.length : ℚ) - 1) * 100 ∧
      ∀ q ∈ scoresMap rows, q.2.ratio = p.2.ratio → q.2.percentile = p.2.percentile := by
  intro p hp
  simp only [scoresMap, List.mem_map] at hp
  obtain ⟨r, hr, rfl⟩ := hp
  constructor
  · show (100 : ℚ) - percentRank (rows.map RatioRow.ratio) r.ratio = _
    unfold percentRank sqlRank
    rw [List.length_map]
    push_cast
    ring
  · intro q hq hratio
    simp only [scoresMap, List.mem_map] at hq
    obtain ⟨r', hr', rfl⟩ := hq
    show percentRank _ r'.ratio = percentRank _ r.ratio
    have : r'.ratio = r.ratio := hratio
    rw [this]

/-- Witness for C1: a two-geography population, checked on the first entry. -/
theorem c1_subscore_is_inverted_percent_rank_witness :
    2 ≤ ([⟨⟨"CITY", "1"⟩, 1⟩, ⟨⟨"CITY", "2"⟩, 2⟩] : List RatioRow).length ∧
    ((⟨⟨"CITY", "1"⟩, ⟨100, 0, 1⟩⟩ : GeoKey × CompEntry)).2.score =
      100 - (countLt (([⟨⟨"CITY", "1"⟩, 1⟩, ⟨⟨"CITY", "2"⟩, 2⟩] : List RatioRow).map
        RatioRow.ratio) (⟨(100 : ℚ), 0, 1⟩ : CompEntry).ratio : ℚ) /
        ((([⟨⟨"CITY", "1"⟩, 1⟩, ⟨⟨"CITY", "2"⟩, 2⟩] : List RatioRow).length : ℚ) - 1) * 100 :=
  ⟨by decide,
   (c1_subscore_is_inverted_percent_rank
     [⟨⟨"CITY", "1"⟩, 1⟩, ⟨⟨"CITY", "2"⟩, 2⟩] (by decide)
     ⟨⟨"CITY", "1"⟩, ⟨100, 0, 1⟩⟩
     (by norm_num [scoresMap, percentRank, sqlRank, countLt, List.filter])).1⟩

/-! ## C5 -/

theorem quality_of_mkRecord {k : GeoKey} {housing col tax : Option CompEntry}
    {r : ScoreRecord} (hmk : mkRecord k housing col tax = some r) :
    r.dataQuality =
      specDataQuality r.housingScore.isSome r.colScore.isSome r.taxScore.isSome := by
  obtain ⟨-, rfl⟩ := mkRecord_eq_some hmk
  rcases housing with _ | e <;> rcases col with _ | e' <;> rcases tax with _ | e'' <;>
    simp [componentsAvailable, specDataQuality]

/-- C5 counterexample: the per-geography script (`generate_v2_scores.py`)
emits a ScoreRecord with `dataQuality = "partial"` for a geography with
exactly 2 of the 3 components present, where the claimed 2-of-3 rule
says `"complete"`. -/
theorem c5_data_quality_counterexample :
    (generate_v2_score_for_geography ⟨"CITY", "1"⟩
      (some ⟨60, 40, 3/10⟩) (some ⟨40, 60, 2/10⟩) none none).map
        ScoreRecord.dataQuality = some "partial" ∧
    specDataQuality true true false = "complete" ∧
    ("partial" : String) ≠ "complete" := by
  refine ⟨?_, by decide, by decide⟩
  simp [generate_v2_score_for_geography, calculate_composite_score, presentPairs,
    assess_data_quality, HOUSING_WEIGHT, COL_WEIGHT, TAX_WEIGHT, QOL_WEIGHT]

/-- C5 amended: every ScoreRecord emitted by the batch pipeline
(`generate_v2_scores_batch.py`) carries the claimed 2-of-3 data-quality
label; the per-geography script (`generate_v2_scores.py`) instead counts the
always-absent qol component with thresholds 3/2, so with qol absent it labels
`"complete"` only when all three of housing/col/tax are present and
`"partial"` when at least two are. -/
theorem c5_data_quality_amended :
    (∀ housing_map col_map tax_map : List (GeoKey × CompEntry),
      ∀ r ∈ calculate_composite_scores housing_map col_map tax_map,
        r.dataQuality =
          specDataQuality r.housingScore.isSome r.colScore.isSome r.taxScore.isSome) ∧
    (∀ housing col tax : Bool,
      assess_data_quality housing col tax false =
        if housing && col && tax then "complete"
        else if 2 ≤ (cond housing 1 0) + (cond col 1 0) + (cond tax 1 0) then "partial"
        else "minimal") := by
  refine ⟨?_, by decide⟩
  intro housing_map col_map tax_map r hr
  exact quality_of_mkRecord (mem_composite_scores hr)

/-- Witness for C5 at a concrete batch input. -/
theorem c5_data_quality_amended_witness :
    (⟨"CITY", "A", some 60, none, none, none, 60, some (1/2), none, none,
      "partial"⟩ : ScoreRecord).dataQuality =
      specDataQuality (some (60 : ℚ)).isSome (none : Option ℚ).isSome
        (none : Option ℚ).isSome :=
  c5_data_quality_amended.1 [(⟨"CITY", "A"⟩, ⟨60, 40, 1/2⟩)] [] []
    ⟨"CITY", "A", some 60, none, none, none, 60, some (1/2), none, none, "partial"⟩
    (by norm_num +decide [calculate_composite_scores, assocLookup, mkRecord, totalBurden,
      componentsAvailable, batchComposite, List.dedup])

/-! ## C6 -/

/-- C6: a geography with no computable component produces no record
(`calculate_composite_score` returns `None` and the per-geography script
emits nothing), and in the batch pipeline a geography whose total observed
burden is zero, in particular one absent from all three component maps, is
skipped: no emitted ScoreRecord carries its key. -/
theorem c6_zero_component_skip :
    calculate_composite_score none none none none = none ∧
    (∀ k : GeoKey, generate_v2_score_for_geography k none none none none = none) ∧
    (∀ housing_map col_map tax_map : List (GeoKey × CompEntry), ∀ k : GeoKey,
      totalBurden (assocLookup housing_map k) (assocLookup col_map k)
        (assocLookup tax_map k) = 0 →
      ∀ r ∈ calculate_composite_scores housing_map col_map tax_map, r.key ≠ k) ∧
    (∀ housing_map col_map tax_map : List (GeoKey × CompEntry), ∀ k : GeoKey,
      assocLookup housing_map k = none → assocLookup col_map k = none →
      assocLookup tax_map k = none →
      ∀ r ∈ calculate_composite_scores housing_map col_map tax_map, r.key ≠ k) := by
  have skip : ∀ (hm cm tm : List (GeoKey × CompEntry)) (k : GeoKey),
      totalBurden (assocLookup hm k) (assocLookup cm k) (assocLookup tm k) = 0 →
      ∀ r ∈ calculate_composite_scores hm cm tm, r.key ≠ k := by
    intro hm cm tm k h0 r hr hkey
    have hmk := mem_composite_scores hr
    rw [hkey] at hmk
    simp [mkRecord, h0] at hmk
  refine ⟨rfl, fun k => rfl, skip, ?_⟩
  intro hm cm tm k hh hc ht
  refine skip hm cm tm k ?_
  rw [hh, hc, ht]
  norm_num [totalBurden]

/-- Witness for C6: a one-geography population; the single emitted record
does not carry the key of an absent geography. -/
theorem c6_zero_component_skip_witness :
    (⟨"CITY", "A", some 60, none, none, none, 60, some (1/2), none, none,
      "partial"⟩ : ScoreRecord).key ≠ ⟨"CITY", "B"⟩ :=
  c6_zero_component_skip.2.2.1 [(⟨"CITY", "A"⟩, ⟨60, 40, 1/2⟩)] [] [] ⟨"CITY", "B"⟩
    (by norm_num +decide [assocLookup, totalBurden])
    ⟨"CITY", "A", some 60, none, none, none, 60, some (1/2), none, none, "partial"⟩
    (by norm_num +decide [calculate_composite_scores, assocLookup, mkRecord, totalBurden,
      componentsAvailable, batchComposite, List.dedup])

/-! ## C7 -/

/-- C7 counterexample: a two-geography population where state "BB" has no
sales-tax row.  The batch tax query still produces a tax burden ratio for the
"BB" geography (computed with the sales-tax rate coerced to 0), and that
geography then receives tax sub-score 100 — ranked as having the lowest tax
burden — contradicting the claim that its tax component is ABSENT. -/
theorem c7_missing_sales_tax_counterexample :
    taxRatioRows [⟨⟨"CITY", "A"⟩, "AA", 50000⟩, ⟨⟨"CITY", "B"⟩, "BB", 50000⟩]
        [] [("AA", 6)] =
      [⟨⟨"CITY", "A"⟩, 9/500⟩, ⟨⟨"CITY", "B"⟩, 0⟩] ∧
    assocLookup (scoresMap [⟨⟨"CITY", "A"⟩, 9/500⟩, ⟨⟨"CITY", "B"⟩, 0⟩]) ⟨"CITY", "B"⟩ =
      some ⟨100, 0, 0⟩ := by
  constructor
  · norm_num +decide [taxRatioRows, batchTaxRatio, assocLookup, List.filter]
  · norm_num +decide [scoresMap, assocLookup, percentRank, sqlRank, countLt, List.filter]

/-- C7 amended: a geography whose state has no sales-tax row is *not*
dropped from the tax component; it still receives a tax burden ratio,
computed with the missing sales-tax rate coerced to 0 (income-tax part
only). -/
theorem c7_missing_sales_tax_amended
    (geos : List GeoStateRow) (incomeTaxTable : List (String × IncomeTaxRates))
    (salesTaxTable : List (String × ℚ)) (g : GeoStateRow)
    (hg : g ∈ geos) (hnone : assocLookup salesTaxTable g.stateAbbr = none)
    (hpos : 0 < g.medianIncome) :
    (⟨g.key, batchTaxRatio g.medianIncome
      (assocLookup incomeTaxTable g.stateAbbr) none⟩ : RatioRow)
      ∈ taxRatioRows geos incomeTaxTable salesTaxTable := by
  unfold taxRatioRows
  rw [List.mem_map]
  refine ⟨g, ?_, by rw [hnone]⟩
  rw [List.mem_filter]
  exact ⟨hg, by simpa using hpos⟩

/-- Witness for C7 at a concrete geography with no sales-tax row. -/
theorem c7_missing_sales_tax_amended_witness :
    (⟨⟨"CITY", "B"⟩, batchTaxRatio 50000 (assocLookup [] "BB") none⟩ : RatioRow)
      ∈ taxRatioRows [⟨⟨"CITY", "B"⟩, "BB", 50000⟩] [] [] :=
  c7_missing_sales_tax_amended [⟨⟨"CITY", "B"⟩, "BB", 50000⟩] [] []
    ⟨⟨"CITY", "B"⟩, "BB", 50000⟩ (by decide) rfl (by norm_num)


/-! ## Rank and bound lemmas, score store, C3, C8, C9 -/

theorem countLt_le_length (l : List ℚ) (v : ℚ) : countLt l v ≤ l.length :=
  List.length_filter_le _ l

theorem countLt_lt_length {l : List ℚ} {v : ℚ} (hv : v ∈ l) : countLt l v < l.length := by
  induction l with
  | nil => cases hv
  | cons x xs ih =>
    unfold countLt at ih ⊢
    rw [List.filter_cons]
    rcases List.mem_cons.mp hv with rfl | hv'
    · have h := List.length_filter_le (fun x => decide (x < v)) xs
      simp [lt_irrefl]
      omega
    · have h := ih hv'
      by_cases hx : x < v <;> simp [hx] <;> omega

theorem countLt_mono {l : List ℚ} {a b : ℚ} (hab : a ≤ b) : countLt l a ≤ countLt l b := by
  induction l with
  | nil => simp [countLt]
  | cons x xs ih =>
    unfold countLt at ih ⊢
    rw [List.filter_cons, List.filter_cons]
    by_cases hx : x < a
    · have hxb : x < b := lt_of_lt_of_le hx hab
      simp [hx, hxb]
      omega
    · by_cases hxb : x < b <;> simp [hx, hxb] <;> omega

theorem countLt_strict {l : List ℚ} {a b : ℚ} (ha : a ∈ l) (hab : a < b) :
    countLt l a < countLt l b := by
  induction l with
  | nil => cases ha
  | cons x xs ih =>
    unfold countLt at ih ⊢
    rw [List.filter_cons, List.filter_cons]
    rcases List.mem_cons.mp ha with rfl | ha'
    · have h := countLt_mono (l := xs) (le_of_lt hab)
      unfold countLt at h
      simp [lt_irrefl, hab]
      omega
    · have h := ih ha'
      by_cases hx : x < a
      · have hxb : x < b := lt_trans hx hab
        simp [hx, hxb]
        omega
      · by_cases hxb : x < b <;> simp [hx, hxb] <;> omega

theorem percentRank_nonneg {vals : List ℚ} {v : ℚ} (hv : v ∈ vals) :
    0 ≤ percentRank vals v := by
  unfold percentRank sqlRank
  have hc := countLt_lt_length hv
  by_cases h1 : vals.length = 1
  · rw [h1]
    have h0 : countLt vals v = 0 := by omega
    rw [h0]
    norm_num
  · have h2 : 2 ≤ vals.length := by
      have : 0 < vals.length := List.length_pos.mpr (List.ne_nil_of_mem hv)
      omega
    have hd : (0:ℚ) < (vals.length : ℚ) - 1 := by
      have : (2:ℚ) ≤ (vals.length : ℚ) := by exact_mod_cast h2
      linarith
    have hnum : (0:ℚ) ≤ ((1 + countLt vals v : ℕ) : ℚ) - 1 := by
      push_cast
      have h3 : (0:ℚ) ≤ (countLt vals v : ℚ) := Nat.cast_nonneg _
      linarith
    exact mul_nonneg (div_nonneg hnum (le_of_lt hd)) (by norm_num)

theorem percentRank_le_100 {vals : List ℚ} {v : ℚ} (hv : v ∈ vals) :
    percentRank vals v ≤ 100 := by
  unfold percentRank sqlRank
  have hc := countLt_lt_length hv
  by_cases h1 : vals.length = 1
  · rw [h1]
    have h0 : countLt vals v = 0 := by omega
    rw [h0]
    norm_num
  · have h2 : 2 ≤ vals.length := by
      have : 0 < vals.length := List.length_pos.mpr (List.ne_nil_of_mem hv)
      omega
    have hd : (0:ℚ) < (vals.length : ℚ) - 1 := by
      have : (2:ℚ) ≤ (vals.length : ℚ) := by exact_mod_cast h2
      linarith
    have hnum : ((1 + countLt vals v : ℕ) : ℚ) - 1 ≤ (vals.length : ℚ) - 1 := by
      push_cast
      have : (countLt vals v : ℚ) + 1 ≤ (vals.length : ℚ) := by exact_mod_cast hc
      linarith
    have hq : (((1 + countLt vals v : ℕ) : ℚ) - 1) / ((vals.length : ℚ) - 1) ≤ 1 := by
      rw [div_le_one hd]
      exact hnum
    have := mul_le_mul_of_nonneg_right hq (by norm_num : (0:ℚ) ≤ 100)
    simpa using this

theorem weighted_sum_bounds (s1 r1 s2 r2 s3 r3 : ℚ)
    (hs1 : 0 ≤ s1) (hs1' : s1 ≤ 100) (hs2 : 0 ≤ s2) (hs2' : s2 ≤ 100)
    (hs3 : 0 ≤ s3) (hs3' : s3 ≤ 100)
    (hr1 : 0 ≤ r1) (hr2 : 0 ≤ r2) (hr3 : 0 ≤ r3)
    (hT : r1 + r2 + r3 ≠ 0) :
    0 ≤ s1 * (r1 / (r1 + r2 + r3)) + s2 * (r2 / (r1 + r2 + r3)) +
        s3 * (r3 / (r1 + r2 + r3)) ∧
    s1 * (r1 / (r1 + r2 + r3)) + s2 * (r2 / (r1 + r2 + r3)) +
        s3 * (r3 / (r1 + r2 + r3)) ≤ 100 := by
  have hT' : 0 < r1 + r2 + r3 := lt_of_le_of_ne (by positivity) (Ne.symm hT)
  have hsum : s1 * (r1 / (r1 + r2 + r3)) + s2 * (r2 / (r1 + r2 + r3)) +
      s3 * (r3 / (r1 + r2 + r3)) = (s1 * r1 + s2 * r2 + s3 * r3) / (r1 + r2 + r3) := by
    field_simp
  rw [hsum]
  constructor
  · positivity
  · rw [div_le_iff₀ hT']
    nlinarith [mul_le_mul_of_nonneg_right hs1' hr1, mul_le_mul_of_nonneg_right hs2' hr2,
      mul_le_mul_of_nonneg_right hs3' hr3]

theorem batchComposite_bounds {housing col tax : Option CompEntry}
    (hh : ∀ e, housing = some e → 0 ≤ e.score ∧ e.score ≤ 100 ∧ 0 ≤ e.ratio)
    (hc : ∀ e, col = some e → 0 ≤ e.score ∧ e.score ≤ 100 ∧ 0 ≤ e.ratio)
    (ht : ∀ e, tax = some e → 0 ≤ e.score ∧ e.score ≤ 100 ∧ 0 ≤ e.ratio)
    (hT : totalBurden housing col tax ≠ 0) :
    0 ≤ batchComposite housing col tax ∧ batchComposite housing col tax ≤ 100 := by
  unfold totalBurden at hT
  unfold batchComposite totalBurden
  rcases housing with _ | e1 <;> rcases col with _ | e2 <;> rcases tax with _ | e3 <;>
    simp only [Option.some.injEq, forall_eq'] at hh hc ht ⊢
  · exact absurd (by norm_num) hT
  · have H := weighted_sum_bounds 0 0 0 0 e3.score e3.ratio (le_refl 0) (by norm_num)
      (le_refl 0) (by norm_num) ht.1 ht.2.1 (le_refl 0) (le_refl 0) ht.2.2 hT
    constructor <;> [linarith [H.1]; linarith [H.2]]
  · have H := weighted_sum_bounds 0 0 e2.score e2.ratio 0 0 (le_refl 0) (by norm_num)
      hc.1 hc.2.1 (le_refl 0) (by norm_num) (le_refl 0) hc.2.2 (le_refl 0) hT
    constructor <;> [linarith [H.1]; linarith [H.2]]
  · have H := weighted_sum_bounds 0 0 e2.score e2.ratio e3.score e3.ratio (le_refl 0)
      (by norm_num) hc.1 hc.2.1 ht.1 ht.2.1 (le_refl 0) hc.2.2 ht.2.2 hT
    constructor <;> [linarith [H.1]; linarith [H.2]]
  · have H := weighted_sum_bounds e1.score e1.ratio 0 0 0 0 hh.1 hh.2.1 (le_refl 0)
      (by norm_num) (le_refl 0) (by norm_num) hh.2.2 (le_refl 0) (le_refl 0) hT
    constructor <;> [linarith [H.1]; linarith [H.2]]
  · have H := weighted_sum_bounds e1.score e1.ratio 0 0 e3.score e3.ratio hh.1 hh.2.1
      (le_refl 0) (by norm_num) ht.1 ht.2.1 hh.2.2 (le_refl 0) ht.2.2 hT
    constructor <;> [linarith [H.1]; linarith [H.2]]
  · have H := weighted_sum_bounds e1.score e1.ratio e2.score e2.ratio 0 0 hh.1 hh.2.1
      hc.1 hc.2.1 (le_refl 0) (by norm_num) hh.2.2 hc.2.2 (le_refl 0) hT
    constructor <;> [linarith [H.1]; linarith [H.2]]
  · have H := weighted_sum_bounds e1.score e1.ratio e2.score e2.ratio e3.score e3.ratio
      hh.1 hh.2.1 hc.1 hc.2.1 ht.1 ht.2.1 hh.2.2 hc.2.2 ht.2.2 hT
    exact H

theorem mem_scoresMap {rows : List RatioRow} {p : GeoKey × CompEntry}
    (hp : p ∈ scoresMap rows) :
    p.2.score = 100 - percentRank (rows.map RatioRow.ratio) p.2.ratio ∧
    p.2.ratio ∈ rows.map RatioRow.ratio := by
  simp only [scoresMap, List.mem_map] at hp
  obtain ⟨r, hr, rfl⟩ := hp
  exact ⟨rfl, List.mem_map_of_mem RatioRow.ratio hr⟩

theorem scoresMap_score_bounds {rows : List RatioRow} {p : GeoKey × CompEntry}
    (hp : p ∈ scoresMap rows) : 0 ≤ p.2.score ∧ p.2.score ≤ 100 := by
  obtain ⟨hs, hm⟩ := mem_scoresMap hp
  rw [hs]
  have h1 := percentRank_nonneg hm
  have h2 := percentRank_le_100 hm
  constructor <;> linarith

theorem scoresMap_ratio_nonneg {rows : List RatioRow} {p : GeoKey × CompEntry}
    (hnn : ∀ x ∈ rows, 0 ≤ x.ratio) (hp : p ∈ scoresMap rows) : 0 ≤ p.2.ratio := by
  obtain ⟨-, hm⟩ := mem_scoresMap hp
  simp only [List.mem_map] at hm
  obtain ⟨x, hx, hxr⟩ := hm
  rw [← hxr]
  exact hnn x hx

theorem assocLookup_mem {α β : Type} [DecidableEq α] {m : List (α × β)} {k : α} {v : β}
    (h : assocLookup m k = some v) : (k, v) ∈ m := by
  induction m with
  | nil => simp [assocLookup] at h
  | cons p rest ih =>
    unfold assocLookup at h
    by_cases hk : p.1 = k
    · rw [if_pos hk] at h
      injection h with h
      have hp : p = (k, v) := by
        cases p
        simp only at hk h
        rw [hk, h]
      rw [hp]
      exact List.mem_cons_self _ _
    · rw [if_neg hk] at h
      exact List.mem_cons_of_mem _ (ih h)

theorem mem_upsertOne {s : List ScoreRecord} {r x : ScoreRecord}
    (hx : x ∈ upsertOne s r) : x ∈ s ∨ x = r := by
  unfold upsertOne at hx
  by_cases hany : s.any (matchesKey r)
  · rw [if_pos hany] at hx
    simp only [List.mem_map] at hx
    obtain ⟨y, hy, hyx⟩ := hx
    by_cases hm : matchesKey r y
    · rw [if_pos hm] at hyx
      right
      exact hyx.symm
    · rw [if_neg hm] at hyx
      left
      rw [← hyx]
      exact hy
  · rw [if_neg hany] at hx
    rcases List.mem_append.mp hx with h | h
    · left; exact h
    · right; exact List.mem_singleton.mp h

theorem mem_store_v2_scores {records : List ScoreRecord} :
    ∀ {x : ScoreRecord} {store : List ScoreRecord},
      x ∈ store_v2_scores store records → x ∈ store ∨ x ∈ records := by
  induction records with
  | nil => intro x store hx; exact Or.inl hx
  | cons r rs ih =>
    intro x store hx
    rw [store_v2_scores, List.foldl_cons] at hx
    rcases ih hx with h | h
    · rcases mem_upsertOne h with h' | h'
      · exact Or.inl h'
      · exact Or.inr (h' ▸ List.mem_cons_self r rs)
    · exact Or.inr (List.mem_cons_of_mem _ h)

theorem mem_normalizeStore {s : List ScoreRecord} {r : ScoreRecord}
    (hr : r ∈ normalizeStore s) :
    ∃ r0 ∈ s, r = { r0 with
      compositeScore :=
        percentRank (s.map ScoreRecord.compositeScore) r0.compositeScore } := by
  simp only [normalizeStore, List.mem_map] at hr
  obtain ⟨r0, h0, hr0⟩ := hr
  exact ⟨r0, h0, hr0.symm⟩

theorem mkRecord_bounds {k : GeoKey} {housing col tax : Option CompEntry} {r : ScoreRecord}
    (hmk : mkRecord k housing col tax = some r)
    (hh : ∀ e, housing = some e → 0 ≤ e.score ∧ e.score ≤ 100 ∧ 0 ≤ e.ratio)
    (hc : ∀ e, col = some e → 0 ≤ e.score ∧ e.score ≤ 100 ∧ 0 ≤ e.ratio)
    (ht : ∀ e, tax = some e → 0 ≤ e.score ∧ e.score ≤ 100 ∧ 0 ≤ e.ratio) :
    (0 ≤ r.compositeScore ∧ r.compositeScore ≤ 100) ∧
    (∀ q, r.housingScore = some q → 0 ≤ q ∧ q ≤ 100) ∧
    (∀ q, r.colScore = some q → 0 ≤ q ∧ q ≤ 100) ∧
    (∀ q, r.taxScore = some q → 0 ≤ q ∧ q ≤ 100) := by
  obtain ⟨hT, hrec⟩ := mkRecord_eq_some hmk
  subst hrec
  refine ⟨batchComposite_bounds hh hc ht hT, ?_, ?_, ?_⟩
  · intro q hq
    rcases housing with _ | e
    · simp at hq
    · simp only [Option.map_some'] at hq
      injection hq with hq
      rw [← hq]
      exact ⟨(hh e rfl).1, (hh e rfl).2.1⟩
  · intro q hq
    rcases col with _ | e
    · simp at hq
    · simp only [Option.map_some'] at hq
      injection hq with hq
      rw [← hq]
      exact ⟨(hc e rfl).1, (hc e rfl).2.1⟩
  · intro q hq
    rcases tax with _ | e
    · simp at hq
    · simp only [Option.map_some'] at hq
      injection hq with hq
      rw [← hq]
      exact ⟨(ht e rfl).1, (ht e rfl).2.1⟩

/-- C9: every component sub-score produced by the rank transform lies in
[0, 100]; for burden-ratio inputs that are nonnegative, every emitted
ScoreRecord has composite and non-null component scores in [0, 100], both
before and after the store-and-normalize passes (the Global Normalizer
replaces the composite by a percentile rank, again in [0, 100]). -/
theorem c9_scores_in_range (housingRows colRows taxRows : List RatioRow)
    (hh : ∀ x ∈ housingRows, 0 ≤ x.ratio)
    (hc : ∀ x ∈ colRows, 0 ≤ x.ratio)
    (ht : ∀ x ∈ taxRows, 0 ≤ x.ratio) :
    (∀ p ∈ scoresMap housingRows, 0 ≤ p.2.score ∧ p.2.score ≤ 100) ∧
    (∀ p ∈ scoresMap colRows, 0 ≤ p.2.score ∧ p.2.score ≤ 100) ∧
    (∀ p ∈ scoresMap taxRows, 0 ≤ p.2.score ∧ p.2.score ≤ 100) ∧
    (∀ r ∈ calculate_composite_scores (scoresMap housingRows) (scoresMap colRows)
        (scoresMap taxRows),
      (0 ≤ r.compositeScore ∧ r.compositeScore ≤ 100) ∧
      (∀ q, r.housingScore = some q → 0 ≤ q ∧ q ≤ 100) ∧
      (∀ q, r.colScore = some q → 0 ≤ q ∧ q ≤ 100) ∧
      (∀ q, r.taxScore = some q → 0 ≤ q ∧ q ≤ 100)) ∧
    (∀ r ∈ runPipeline housingRows colRows taxRows [],
      (0 ≤ r.compositeScore ∧ r.compositeScore ≤ 100) ∧
      (∀ q, r.housingScore = some q → 0 ≤ q ∧ q ≤ 100) ∧
      (∀ q, r.colScore = some q → 0 ≤ q ∧ q ≤ 100) ∧
      (∀ q, r.taxScore = some q → 0 ≤ q ∧ q ≤ 100)) := by
  have comp_part : ∀ r ∈ calculate_composite_scores (scoresMap housingRows)
      (scoresMap colRows) (scoresMap taxRows),
      (0 ≤ r.compositeScore ∧ r.compositeScore ≤ 100) ∧
      (∀ q, r.housingScore = some q → 0 ≤ q ∧ q ≤ 100) ∧
      (∀ q, r.colScore = some q → 0 ≤ q ∧ q ≤ 100) ∧
      (∀ q, r.taxScore = some q → 0 ≤ q ∧ q ≤ 100) := by
    intro r hrm
    have hmk := mem_composite_scores hrm
    refine mkRecord_bounds hmk ?_ ?_ ?_
    · intro e he
      have hmem := assocLookup_mem he
      have hb := scoresMap_score_bounds hmem
      have hn := scoresMap_ratio_nonneg hh hmem
      exact ⟨hb.1, hb.2, hn⟩
    · intro e he
      have hmem := assocLookup_mem he
      have hb := scoresMap_score_bounds hmem
      have hn := scoresMap_ratio_nonneg hc hmem
      exact ⟨hb.1, hb.2, hn⟩
    · intro e he
      have hmem := assocLookup_mem he
      have hb := scoresMap_score_bounds hmem
      have hn := scoresMap_ratio_nonneg ht hmem
      exact ⟨hb.1, hb.2, hn⟩
  refine ⟨fun p hp => scoresMap_score_bounds hp, fun p hp => scoresMap_score_bounds hp,
    fun p hp => scoresMap_score_bounds hp, comp_part, ?_⟩
  intro r hrm
  unfold runPipeline at hrm
  obtain ⟨r0, h0, rfl⟩ := mem_normalizeStore hrm
  have h0' : r0 ∈ calculate_composite_scores (scoresMap housingRows) (scoresMap colRows)
      (scoresMap taxRows) := by
    rcases mem_store_v2_scores h0 with h | h
    · cases h
    · exact h
  have hcomp := comp_part r0 h0'
  have hmemv : r0.compositeScore ∈
      (store_v2_scores [] (calculate_composite_scores (scoresMap housingRows)
        (scoresMap colRows) (scoresMap taxRows))).map ScoreRecord.compositeScore :=
    List.mem_map_of_mem ScoreRecord.compositeScore h0
  exact ⟨⟨percentRank_nonneg hmemv, percentRank_le_100 hmemv⟩,
    hcomp.2.1, hcomp.2.2.1, hcomp.2.2.2⟩

theorem matchesKey_iff {r x : ScoreRecord} : matchesKey r x = true ↔ x.key = r.key := by
  simp [matchesKey, ScoreRecord.key, GeoKey.mk.injEq]

theorem keys_filterMap_sublist (f : GeoKey → Option ScoreRecord)
    (hf : ∀ k r, f k = some r → r.key = k) :
    ∀ l : List GeoKey, List.Sublist ((l.filterMap f).map ScoreRecord.key) l := by
  intro l
  induction l with
  | nil => simp
  | cons a l ih =>
    rw [List.filterMap_cons]
    cases hfa : f a with
    | none => exact ih.cons a
    | some r =>
      rw [List.map_cons, hf a r hfa]
      exact ih.cons₂ a

theorem composite_scores_keys_nodup (housing_map col_map tax_map : List (GeoKey × CompEntry)) :
    ((calculate_composite_scores housing_map col_map tax_map).map ScoreRecord.key).Nodup := by
  unfold calculate_composite_scores
  exact (List.nodup_dedup _).sublist
    (keys_filterMap_sublist _ (fun k r h => mkRecord_key h) _)

theorem normalizeStore_keys (s : List ScoreRecord) :
    (normalizeStore s).map ScoreRecord.key = s.map ScoreRecord.key := by
  unfold normalizeStore
  rw [List.map_map]
  rfl

theorem upsertAll_fresh :
    ∀ (rs s : List ScoreRecord),
      (∀ r ∈ rs, r.key ∉ s.map ScoreRecord.key) → (rs.map ScoreRecord.key).Nodup →
      store_v2_scores s rs = s ++ rs := by
  intro rs
  induction rs with
  | nil => intro s _ _; simp [store_v2_scores]
  | cons r rs ih =>
    intro s hfresh hnd
    have hrk : r.key ∉ s.map ScoreRecord.key := hfresh r (List.mem_cons_self r rs)
    have hany : s.any (matchesKey r) = false := by
      rw [List.any_eq_false]
      intro x hx hmx
      exact hrk (List.mem_map.mpr ⟨x, hx, matchesKey_iff.mp hmx⟩)
    rw [store_v2_scores, List.foldl_cons, upsertOne, if_neg (by rw [hany]; simp)]
    have hstep : List.foldl upsertOne (s ++ [r]) rs = store_v2_scores (s ++ [r]) rs := rfl
    rw [hstep, ih (s ++ [r]) ?_ (List.Nodup.of_cons hnd)]
    · rw [List.append_assoc]
      rfl
    · intro r' hr'
      rw [List.map_append, List.mem_append]
      rintro (h | h)
      · exact hfresh r' (List.mem_cons_of_mem r hr') h
      · simp only [List.map_cons, List.map_nil, List.mem_singleton] at h
        rw [List.map_cons] at hnd
        have : r.key ∉ rs.map ScoreRecord.key := (List.nodup_cons.mp hnd).1
        exact this (h ▸ List.mem_map.mpr ⟨r', hr', rfl⟩)

theorem upsertAll_refresh :
    ∀ (rs done pre : List ScoreRecord),
      pre.map ScoreRecord.key = rs.map ScoreRecord.key →
      ((done ++ pre).map ScoreRecord.key).Nodup →
      store_v2_scores (done ++ pre) rs = done ++ rs := by
  intro rs
  induction rs with
  | nil =>
    intro done pre hkeys hnd
    have : pre = [] := by simpa using hkeys
    subst this
    simp [store_v2_scores]
  | cons r rs ih =>
    intro done pre hkeys hnd
    cases pre with
    | nil => simp at hkeys
    | cons p pre' =>
      rw [List.map_cons, List.map_cons] at hkeys
      injection hkeys with hpk hkeys'
      have hany : (done ++ p :: pre').any (matchesKey r) = true := by
        rw [List.any_eq_true]
        exact ⟨p, by simp, matchesKey_iff.mpr hpk⟩
      rw [store_v2_scores, List.foldl_cons, upsertOne, if_pos (by rw [hany])]
      have hnd' := hnd
      rw [List.map_append, List.nodup_append] at hnd'
      obtain ⟨hndd, hndp, hdisj⟩ := hnd'
      rw [List.map_cons] at hndp
      have hmap : (done ++ p :: pre').map (fun x => if matchesKey r x then r else x) =
          done ++ r :: pre' := by
        rw [List.map_append, List.map_cons]
        congr 1
        · have hdone : List.map (fun x => if matchesKey r x = true then r else x) done =
              List.map id done := by
            apply List.map_congr_left
            intro x hx
            rw [if_neg, id_eq]
            intro hmx
            have hxk := matchesKey_iff.mp hmx
            exact hdisj (List.mem_map.mpr ⟨x, hx, rfl⟩)
              (by rw [hxk, ← hpk]; exact List.mem_cons_self _ _)
          rw [hdone, List.map_id]
        · rw [if_pos (matchesKey_iff.mpr hpk)]
          congr 1
          have hpre : List.map (fun x => if matchesKey r x = true then r else x) pre' =
              List.map id pre' := by
            apply List.map_congr_left
            intro x hx
            rw [if_neg, id_eq]
            intro hmx
            have hxk := matchesKey_iff.mp hmx
            have hnp : p.key ∉ pre'.map ScoreRecord.key := (List.nodup_cons.mp hndp).1
            exact hnp (by rw [hpk, ← hxk]; exact List.mem_map.mpr ⟨x, hx, rfl⟩)
          rw [hpre, List.map_id]
      rw [hmap]
      have hstep : List.foldl upsertOne (done ++ r :: pre') rs =
          store_v2_scores (done ++ r :: pre') rs := rfl
      rw [hstep]
      have hre : done ++ r :: pre' = (done ++ [r]) ++ pre' := by
        rw [List.append_assoc]
        rfl
      rw [hre, ih (done ++ [r]) pre' hkeys' ?_]
      · rw [List.append_assoc]
        rfl
      · have heq : ((done ++ [r]) ++ pre').map ScoreRecord.key =
            (done ++ p :: pre').map ScoreRecord.key := by
          rw [List.append_assoc]
          simp [hpk]
        rw [heq]
        exact hnd

/-- C8: running the batch pipeline twice on unchanged input data yields the
same stored ScoreRecords as running it once (the model omits the
`calculatedAt` timestamp, the only field the spec allows to change):
every record is overwritten by the upsert with an identical recomputed value
and the Global Normalizer then reproduces the same percentile ranks. -/
theorem c8_pipeline_idempotent (housingRows colRows taxRows : List RatioRow) :
    runPipeline housingRows colRows taxRows
      (runPipeline housingRows colRows taxRows []) =
    runPipeline housingRows colRows taxRows [] := by
  have hnd := composite_scores_keys_nodup (scoresMap housingRows) (scoresMap colRows)
    (scoresMap taxRows)
  have h1 : runPipeline housingRows colRows taxRows [] =
      normalizeStore (calculate_composite_scores (scoresMap housingRows)
        (scoresMap colRows) (scoresMap taxRows)) := by
    simp only [runPipeline]
    rw [upsertAll_fresh _ [] (by simp) hnd]
    rw [List.nil_append]
  rw [h1]
  simp only [runPipeline]
  rw [show store_v2_scores
      (normalizeStore (calculate_composite_scores (scoresMap housingRows)
        (scoresMap colRows) (scoresMap taxRows)))
      (calculate_composite_scores (scoresMap housingRows) (scoresMap colRows)
        (scoresMap taxRows)) =
      calculate_composite_scores (scoresMap housingRows) (scoresMap colRows)
        (scoresMap taxRows) from ?_]
  have := upsertAll_refresh
    (calculate_composite_scores (scoresMap housingRows) (scoresMap colRows)
      (scoresMap taxRows)) []
    (normalizeStore (calculate_composite_scores (scoresMap housingRows)
      (scoresMap colRows) (scoresMap taxRows)))
    (normalizeStore_keys _) (by rw [List.nil_append, normalizeStore_keys]; exact hnd)
  rw [List.nil_append] at this
  exact this

theorem percentRank_eq (vals : List ℚ) (v : ℚ) :
    percentRank vals v = (countLt vals v : ℚ) / ((vals.length : ℚ) - 1) * 100 := by
  unfold percentRank sqlRank
  push_cast
  ring_nf

theorem rank_map_perm {vals : List ℚ} (hnd : vals.Nodup) :
    List.Perm (vals.map (fun v => countLt vals v)) (List.range vals.length) := by
  have hinj : ∀ a ∈ vals, ∀ b ∈ vals, countLt vals a = countLt vals b → a = b := by
    intro a ha b hb hab
    by_contra hne
    rcases lt_or_gt_of_ne hne with h | h
    · exact absurd hab (Nat.ne_of_lt (countLt_strict ha h))
    · exact absurd hab.symm (Nat.ne_of_lt (countLt_strict hb h))
  have hnd2 : (vals.map (fun v => countLt vals v)).Nodup := hnd.map_on hinj
  have hsub : (vals.map (fun v => countLt vals v)) ⊆ List.range vals.length := by
    intro n hn
    rw [List.mem_map] at hn
    obtain ⟨v, hv, rfl⟩ := hn
    rw [List.mem_range]
    exact countLt_lt_length hv
  have hlen : (List.range vals.length).length ≤ (vals.map (fun v => countLt vals v)).length := by
    rw [List.length_range, List.length_map]
  exact (hnd2.subperm hsub).perm_of_length_le hlen

theorem normalizeStore_comp_map (s : List ScoreRecord) :
    (normalizeStore s).map ScoreRecord.compositeScore =
      (s.map ScoreRecord.compositeScore).map
        (fun v => percentRank (s.map ScoreRecord.compositeScore) v) := by
  unfold normalizeStore
  rw [List.map_map, List.map_map]
  rfl

theorem median_of_normalized {s : List ScoreRecord} (h2 : 2 ≤ s.length)
    (hnd : (s.map ScoreRecord.compositeScore).Nodup) :
    medianQ ((normalizeStore s).map ScoreRecord.compositeScore) = 50 := by
  set vals := s.map ScoreRecord.compositeScore with hvals
  set N := s.length with hN
  have hvlen : vals.length = N := by rw [hvals, List.length_map]
  set f : ℕ → ℚ := fun n => (n : ℚ) / ((N : ℚ) - 1) * 100 with hf
  have hNQ : (2:ℚ) ≤ (N:ℚ) := by exact_mod_cast h2
  have hd : (0:ℚ) < (N:ℚ) - 1 := by linarith
  have hL : (normalizeStore s).map ScoreRecord.compositeScore =
      vals.map (fun v => percentRank vals v) := normalizeStore_comp_map s
  have hLf : vals.map (fun v => percentRank vals v) =
      (vals.map (fun v => countLt vals v)).map f := by
    conv_rhs => rw [List.map_map]
    apply List.map_congr_left
    intro v hv
    rw [Function.comp_apply, percentRank_eq, hvlen]
  have hperm : List.Perm ((vals.map (fun v => countLt vals v)).map f)
      ((List.range N).map f) := by
    have hp := rank_map_perm hnd
    rw [hvlen] at hp
    exact hp.map f
  have hmono : ∀ a b : ℕ, a ≤ b → f a ≤ f b := by
    intro a b hab
    have hab' : (a:ℚ) ≤ (b:ℚ) := by exact_mod_cast hab
    have h1 : (a:ℚ) / ((N:ℚ) - 1) ≤ (b:ℚ) / ((N:ℚ) - 1) := by gcongr
    simpa only [hf] using mul_le_mul_of_nonneg_right h1 (by norm_num : (0:ℚ) ≤ 100)
  have hsorted : List.Sorted (· ≤ ·) ((List.range N).map f) := by
    apply List.Pairwise.map f
    · intro a b hab
      exact hmono a b (le_of_lt hab)
    · exact List.sorted_lt_range N
  have hLperm : List.Perm ((normalizeStore s).map ScoreRecord.compositeScore)
      ((List.range N).map f) := by
    rw [hL, hLf]
    exact hperm
  have hsort_eq : List.insertionSort (· ≤ ·)
      ((normalizeStore s).map ScoreRecord.compositeScore) = (List.range N).map f :=
    List.eq_of_perm_of_sorted ((List.perm_insertionSort _ _).trans hLperm)
      (List.sorted_insertionSort _ _) hsorted
  have hlen2 : ((normalizeStore s).map ScoreRecord.compositeScore).length = N := by
    rw [hL, List.length_map, hvlen]
  simp only [medianQ]
  rw [hsort_eq, hlen2]
  rcases Nat.even_or_odd N with he | ho
  · obtain ⟨k, hk⟩ := he
    have hk1 : 1 ≤ k := by omega
    have hmod : ¬ N % 2 = 1 := by omega
    rw [if_neg hmod]
    have hidx1 : N / 2 - 1 < N := by omega
    have hidx2 : N / 2 < N := by omega
    have hg1 : ((List.range N).map f).getD (N / 2 - 1) 0 = f (N / 2 - 1) := by
      rw [List.getD_eq_getElem _ _ (by simpa using hidx1), List.getElem_map,
        List.getElem_range]
    have hg2 : ((List.range N).map f).getD (N / 2) 0 = f (N / 2) := by
      rw [List.getD_eq_getElem _ _ (by simpa using hidx2), List.getElem_map,
        List.getElem_range]
    rw [hg1, hg2]
    have h1 : N / 2 - 1 = k - 1 := by omega
    have h2' : N / 2 = k := by omega
    rw [h1, h2']
    simp only [hf]
    have hc1 : ((k - 1 : ℕ) : ℚ) = (k : ℚ) - 1 := by
      rw [Nat.cast_sub hk1, Nat.cast_one]
    have hNk : (N:ℚ) = 2 * (k:ℚ) := by
      rw_mod_cast [hk]
      ring
    rw [hc1, hNk]
    have hk0 : (1:ℚ) ≤ (k:ℚ) := by exact_mod_cast hk1
    have hden : 2 * (k:ℚ) - 1 ≠ 0 := by
      intro h
      linarith
    field_simp
    ring
  · obtain ⟨k, hk⟩ := ho
    have hk1 : 1 ≤ k := by omega
    have hmod : N % 2 = 1 := by omega
    rw [if_pos hmod]
    have hidx : N / 2 < N := by omega
    have hg : ((List.range N).map f).getD (N / 2) 0 = f (N / 2) := by
      rw [List.getD_eq_getElem _ _ (by simpa using hidx), List.getElem_map,
        List.getElem_range]
    rw [hg]
    have h2' : N / 2 = k := by omega
    rw [h2']
    simp only [hf]
    have hNk : (N:ℚ) = 2 * (k:ℚ) + 1 := by
      have hcast := congrArg (fun n : ℕ => (n:ℚ)) hk
      push_cast at hcast
      linarith
    have hk0 : (1:ℚ) ≤ (k:ℚ) := by exact_mod_cast hk1
    rw [hNk]
    have hden : (k:ℚ) ≠ 0 := by linarith
    field_simp
    ring

/-- C3 counterexample: a three-record store whose pre-pass composites are
5, 5, 7 (a tie).  After the Global Normalizer the persisted composites are
0, 0, 100, whose median is 0, not 50 — the PERCENT_RANK pass does not
guarantee median 50 in the presence of ties. -/
theorem c3_median_counterexample :
    (normalizeStore
      [⟨"CITY", "1", none, none, none, none, 5, none, none, none, "minimal"⟩,
       ⟨"CITY", "2", none, none, none, none, 5, none, none, none, "minimal"⟩,
       ⟨"CITY", "3", none, none, none, none, 7, none, none, none, "minimal"⟩]).map
      ScoreRecord.compositeScore = [0, 0, 100] ∧
    medianQ ((normalizeStore
      [⟨"CITY", "1", none, none, none, none, 5, none, none, none, "minimal"⟩,
       ⟨"CITY", "2", none, none, none, none, 5, none, none, none, "minimal"⟩,
       ⟨"CITY", "3", none, none, none, none, 7, none, none, none, "minimal"⟩]).map
      ScoreRecord.compositeScore) = 0 ∧
    ¬ (|medianQ ((normalizeStore
      [⟨"CITY", "1", none, none, none, none, 5, none, none, none, "minimal"⟩,
       ⟨"CITY", "2", none, none, none, none, 5, none, none, none, "minimal"⟩,
       ⟨"CITY", "3", none, none, none, none, 7, none, none, none, "minimal"⟩]).map
      ScoreRecord.compositeScore) - 50| ≤ 1) := by
  have h1 : (normalizeStore
      [⟨"CITY", "1", none, none, none, none, 5, none, none, none, "minimal"⟩,
       ⟨"CITY", "2", none, none, none, none, 5, none, none, none, "minimal"⟩,
       ⟨"CITY", "3", none, none, none, none, 7, none, none, none, "minimal"⟩]).map
      ScoreRecord.compositeScore = [0, 0, 100] := by
    norm_num [normalizeStore, percentRank, sqlRank, countLt, List.filter]
  have h2 : medianQ [(0 : ℚ), 0, 100] = 0 := by
    norm_num [medianQ, List.insertionSort, List.orderedInsert]
  refine ⟨h1, ?_, ?_⟩
  · rw [h1, h2]
  · rw [h1, h2]
    rw [abs_le]
    norm_num

/-- C3 amended: after the Global Normalizer, every persisted compositeScore
equals (number of records with a strictly lower pre-pass composite) /
(N - 1) * 100 (so ties receive the same value); but the median of the
persisted composites equals 50 only when the pre-pass composites are
pairwise distinct (and N ≥ 2) — with ties the median can be arbitrarily far
from 50. -/
theorem c3_normalizer_amended :
    (∀ (s : List ScoreRecord) (i : ℕ), i < s.length →
      ((normalizeStore s).getD i default).compositeScore =
        (countLt (s.map ScoreRecord.compositeScore)
          ((s.getD i default).compositeScore) : ℚ) / ((s.length : ℚ) - 1) * 100) ∧
    (∀ s : List ScoreRecord, 2 ≤ s.length →
      (s.map ScoreRecord.compositeScore).Nodup →
      medianQ ((normalizeStore s).map ScoreRecord.compositeScore) = 50) := by
  constructor
  · intro s i hi
    have hlen : (normalizeStore s).length = s.length := by
      unfold normalizeStore
      rw [List.length_map]
    rw [List.getD_eq_getElem _ _ (by rw [hlen]; exact hi), List.getD_eq_getElem _ _ hi]
    unfold normalizeStore
    rw [List.getElem_map]
    rw [percentRank_eq]
    simp [List.length_map]
  · intro s h2 hnd
    exact median_of_normalized h2 hnd

/-- Witness for C3 at concrete inputs: the formula at a one-record store and
the median at a two-record store with distinct composites. -/
theorem c3_normalizer_amended_witness :
    ((normalizeStore
      [⟨"CITY", "1", none, none, none, none, 5, none, none, none, "minimal"⟩]).getD 0
        default).compositeScore =
      (countLt (([⟨"CITY", "1", none, none, none, none, 5, none, none, none,
        "minimal"⟩] : List ScoreRecord).map ScoreRecord.compositeScore)
        ((([⟨"CITY", "1", none, none, none, none, 5, none, none, none,
          "minimal"⟩] : List ScoreRecord).getD 0 default).compositeScore) : ℚ) /
        ((([⟨"CITY", "1", none, none, none, none, 5, none, none, none,
          "minimal"⟩] : List ScoreRecord).length : ℚ) - 1) * 100 ∧
    medianQ ((normalizeStore
      [⟨"CITY", "1", none, none, none, none, 1, none, none, none, "minimal"⟩,
       ⟨"CITY", "2", none, none, none, none, 2, none, none, none, "minimal"⟩]).map
      ScoreRecord.compositeScore) = 50 :=
  ⟨c3_normalizer_amended.1
    [⟨"CITY", "1", none, none, none, none, 5, none, none, none, "minimal"⟩] 0
    (by norm_num),
   c3_normalizer_amended.2
    [⟨"CITY", "1", none, none, none, none, 1, none, none, none, "minimal"⟩,
     ⟨"CITY", "2", none, none, none, none, 2, none, none, none, "minimal"⟩]
    (by norm_num) (by norm_num [List.nodup_cons])⟩

/-- Witness for C9 at a one-geography housing population. -/
theorem c9_scores_in_range_witness :
    0 ≤ ((⟨⟨"CITY", "A"⟩, ⟨100, 0, 1⟩⟩ : GeoKey × CompEntry)).2.score ∧
    ((⟨⟨"CITY", "A"⟩, ⟨100, 0, 1⟩⟩ : GeoKey × CompEntry)).2.score ≤ 100 :=
  (c9_scores_in_range [⟨⟨"CITY", "A"⟩, 1⟩] [] []
    (by intro x hx; rw [List.mem_singleton] at hx; subst hx; norm_num)
    (by intro x hx; exact absurd hx (List.not_mem_nil x))
    (by intro x hx; exact absurd hx (List.not_mem_nil x))).1
    ⟨⟨"CITY", "A"⟩, ⟨100, 0, 1⟩⟩
    (by norm_num [scoresMap, percentRank, sqlRank, countLt, List.filter])

end AffordabilityIndex
